import Mathlib

/-!
# Verification of the quirkventory order-processing / inventory core

Shallow embedding of the C++ sources `src/Product.cpp`, `src/Inventory.cpp`
and `src/Order.cpp` (namespace `quirkventory`), restricted to the data and
operations exercised by the specification's testable properties.

Modelling conventions:
* C++ `int` quantities and thresholds are modelled as `Int` (no overflow
  modelling; quantities stay far from `INT_MAX` in all claims).
* C++ `double` prices are modelled as `ℚ`; numeric text produced by
  `std::to_string` inside error messages is abstracted by `toString`.
* `std::chrono::system_clock::time_point` values are modelled as `Int`
  timestamps counted in seconds; `duration_cast` to a coarser unit is
  C++ integer division, i.e. truncation toward zero (`Int.tdiv`).
* `std::unordered_map<std::string, T>` is modelled as an association list
  whose keys are unique in every state the C++ program can build; lookups
  use the first matching entry, updates replace the first matching entry.
* Mutexes are erased (single-threaded semantics of the critical sections);
  the lock-free `std::atomic<bool> processing_flag_` of `Order` is kept
  explicitly, and its compare-and-swap protocol is additionally given a
  small interleaving semantics (`ProcStep`) to state mutual exclusion.
* Alert callbacks (`std::function` values) are opaque: the inventory keeps
  a list of callback handles, and `removeQuantity` reports the list of
  (handle, message) invocations it performs instead of running effects.
-/

namespace Quirkventory

/-! ## Product (src/Product.cpp)

The `Product` / `PerishableProduct` class hierarchy is closed, so it is
flattened into one structure with an optional expiry timestamp
(`none` = plain `Product`, whose virtual `isExpired()` returns `false`).
-/

structure Product where
  id : String
  name : String
  category : String
  price : ℚ
  quantity : Int
  expiry : Option Int
deriving Repr, DecidableEq

/-- `Product::isExpired` (base class returns `false`) /
`PerishableProduct::isExpired`: `now > expiry_date_`. -/
def Product.isExpired (p : Product) (now : Int) : Bool :=
  match p.expiry with
  | none => false
  | some e => now > e

/-- `PerishableProduct::isExpired` as a function of the raw timestamps. -/
def perishableIsExpired (expiry_date now : Int) : Bool :=
  now > expiry_date

/-- `PerishableProduct::getDaysUntilExpiry`:
`duration_cast<hours>(expiry_date_ - now).count() / 24`.  Both the
`duration_cast` and the C++ `/` truncate toward zero. -/
def getDaysUntilExpiry (expiry_date now : Int) : Int :=
  ((expiry_date - now).tdiv 3600).tdiv 24

/-! ## Order status (include/Order.hpp) -/

inductive OrderStatus where
  | pending
  | processing
  | confirmed
  | shipped
  | delivered
  | cancelled
  | failed
deriving Repr, DecidableEq

/-! ## Inventory (src/Inventory.cpp) -/

structure Inventory where
  products : List Product
  default_low_stock_threshold : Int
  category_thresholds : List (String × Int)
  alert_callbacks : List Nat
deriving Repr, DecidableEq

/-- `products_.find(product_id)` on the id-keyed map. -/
def Inventory.findProduct (inv : Inventory) (pid : String) : Option Product :=
  inv.products.find? (fun p => p.id == pid)

/-- `Inventory::hasProduct`. -/
def Inventory.hasProduct (inv : Inventory) (pid : String) : Bool :=
  (inv.findProduct pid).isSome

/-- The quantity stored for a product id (`none` if the id is absent). -/
def Inventory.quantityOf (inv : Inventory) (pid : String) : Option Int :=
  (inv.findProduct pid).map Product.quantity

/-- In-place mutation of the map entry the lookup found: replace the first
entry whose id matches. -/
def setProduct : List Product → String → Product → List Product
  | [], _, _ => []
  | q :: rest, pid, p => if q.id == pid then p :: rest else q :: setProduct rest pid p

/-- The category-override-else-default threshold lookup done by the tail of
`Inventory::getThreshold` once a product (hence its category) is known. -/
def effectiveThreshold (inv : Inventory) (category : String) : Int :=
  match inv.category_thresholds.find? (fun ct => ct.1 == category) with
  | some ct => ct.2
  | none => inv.default_low_stock_threshold

/-- `Inventory::getThreshold`. -/
def Inventory.getThreshold (inv : Inventory) (pid : String) : Int :=
  match inv.findProduct pid with
  | none => inv.default_low_stock_threshold
  | some p => effectiveThreshold inv p.category

/-- `Inventory::addQuantity`: reject negative amounts and unknown products,
otherwise `Product::addQuantity` (which cannot throw on the guarded path). -/
def Inventory.addQuantity (inv : Inventory) (pid : String) (amount : Int) :
    Bool × Inventory :=
  if amount < 0 then (false, inv)
  else
    match inv.findProduct pid with
    | none => (false, inv)
    | some p =>
        (true, { inv with
                  products := setProduct inv.products pid
                    { p with quantity := p.quantity + amount } })

/-- Result of `Inventory::removeQuantity`: success flag, the new inventory
state, and the alert-callback invocations performed by `sendAlert`. -/
structure RemoveResult where
  ok : Bool
  inv : Inventory
  invocations : List (Nat × String)
deriving Repr, DecidableEq

/-- The text built for `sendAlert` in `Inventory::removeQuantity`. -/
def lowStockMessage (p : Product) (pid : String) (threshold : Int) : String :=
  "LOW STOCK ALERT: Product '" ++ p.name ++ "' (ID: " ++ pid ++
    ") is now at " ++ toString p.quantity ++ " units (threshold: " ++
    toString threshold ++ ")"

/-- `Inventory::removeQuantity`: reject negative amounts, unknown products
and insufficient stock; on success decrement, then if the new quantity is
strictly below `getThreshold(product_id)` invoke every registered alert
callback with the formatted message. -/
def Inventory.removeQuantity (inv : Inventory) (pid : String) (amount : Int) :
    RemoveResult :=
  if amount < 0 then ⟨false, inv, []⟩
  else
    match inv.findProduct pid with
    | none => ⟨false, inv, []⟩
    | some p =>
        if p.quantity < amount then ⟨false, inv, []⟩
        else
          let p' := { p with quantity := p.quantity - amount }
          let inv' := { inv with products := setProduct inv.products pid p' }
          let threshold := inv'.getThreshold pid
          if p'.quantity < threshold then
            ⟨true, inv',
              inv'.alert_callbacks.map (fun c => (c, lowStockMessage p' pid threshold))⟩
          else
            ⟨true, inv', []⟩

/-! ## Order (src/Order.cpp) -/

structure OrderItem where
  product_id : String
  quantity : Int
  unit_price : ℚ
deriving Repr, DecidableEq

/-- `OrderItem::getTotalPrice`. -/
def OrderItem.getTotalPrice (it : OrderItem) : ℚ :=
  it.quantity * it.unit_price

structure Order where
  order_id : String
  customer_id : String
  items : List OrderItem
  status : OrderStatus
  total_amount : ℚ
  notes : String
  error_message : String
  processing_flag : Bool
deriving Repr, DecidableEq

/-- `Order::canModify`. -/
def Order.canModify (o : Order) : Bool :=
  o.status == OrderStatus.pending

/-- `Order::calculateTotal`. -/
def Order.calculateTotal (o : Order) : ℚ :=
  o.items.foldl (fun total it => total + it.getTotalPrice) 0

/-- `Order::setError`. -/
def Order.setError (o : Order) (message : String) : Order :=
  { o with error_message := message }

/-- The `find_if`-then-`it->quantity += quantity` branch of `Order::addItem`:
increment the first line whose product id matches. -/
def addToExisting : List OrderItem → String → Int → List OrderItem
  | [], _, _ => []
  | it :: rest, pid, qty =>
      if it.product_id == pid then { it with quantity := it.quantity + qty } :: rest
      else it :: addToExisting rest pid qty

/-- Whether the order already holds a line for this product id. -/
def Order.containsItem (o : Order) (pid : String) : Bool :=
  o.items.any (fun it => it.product_id == pid)

/-- `Order::addItem`. -/
def Order.addItem (o : Order) (pid : String) (quantity : Int) (unit_price : ℚ) :
    Bool × Order :=
  if pid = "" ∨ quantity ≤ 0 ∨ unit_price < 0 then (false, o)
  else if !o.canModify then (false, o)
  else
    let items' :=
      if o.containsItem pid then addToExisting o.items pid quantity
      else o.items ++ [⟨pid, quantity, unit_price⟩]
    let o' := { o with items := items' }
    (true, { o' with total_amount := o'.calculateTotal })

/-- The `items_.erase(it)` step of `Order::removeItem`: drop the first line
whose product id matches. -/
def eraseItem : List OrderItem → String → List OrderItem
  | [], _ => []
  | it :: rest, pid => if it.product_id == pid then rest else it :: eraseItem rest pid

/-- `Order::removeItem`. -/
def Order.removeItem (o : Order) (pid : String) : Bool × Order :=
  if !o.canModify then (false, o)
  else if o.containsItem pid then
    let o' := { o with items := eraseItem o.items pid }
    (true, { o' with total_amount := o'.calculateTotal })
  else (false, o)

/-- The `it->quantity = new_quantity` step of `Order::updateItemQuantity`:
overwrite the quantity of the first line whose product id matches. -/
def setItemQuantity : List OrderItem → String → Int → List OrderItem
  | [], _, _ => []
  | it :: rest, pid, qty =>
      if it.product_id == pid then { it with quantity := qty } :: rest
      else it :: setItemQuantity rest pid qty

/-- `Order::updateItemQuantity`. -/
def Order.updateItemQuantity (o : Order) (pid : String) (new_quantity : Int) :
    Bool × Order :=
  if new_quantity ≤ 0 then o.removeItem pid
  else if !o.canModify then (false, o)
  else if o.containsItem pid then
    let o' := { o with items := setItemQuantity o.items pid new_quantity }
    (true, { o' with total_amount := o'.calculateTotal })
  else (false, o)

/-- `Order::updateStatus`: the switch over the current status; terminal
states (`DELIVERED`, `CANCELLED`, `FAILED`) reject every transition. -/
def Order.updateStatus (o : Order) (new_status : OrderStatus) : Bool × Order :=
  match o.status with
  | OrderStatus.pending =>
      if new_status ≠ OrderStatus.processing ∧ new_status ≠ OrderStatus.cancelled ∧
          new_status ≠ OrderStatus.failed then (false, o)
      else (true, { o with status := new_status })
  | OrderStatus.processing =>
      if new_status ≠ OrderStatus.confirmed ∧ new_status ≠ OrderStatus.failed ∧
          new_status ≠ OrderStatus.cancelled then (false, o)
      else (true, { o with status := new_status })
  | OrderStatus.confirmed =>
      if new_status ≠ OrderStatus.shipped ∧ new_status ≠ OrderStatus.cancelled then (false, o)
      else (true, { o with status := new_status })
  | OrderStatus.shipped =>
      if new_status ≠ OrderStatus.delivered then (false, o)
      else (true, { o with status := new_status })
  | OrderStatus.delivered => (false, o)
  | OrderStatus.cancelled => (false, o)
  | OrderStatus.failed => (false, o)

/-- `Order::cancelOrder`. -/
def Order.cancelOrder (o : Order) (reason : String) : Bool × Order :=
  if o.status = OrderStatus.delivered ∨ o.status = OrderStatus.shipped then (false, o)
  else
    (true, { o with
              status := OrderStatus.cancelled,
              notes := if reason = "" then o.notes else reason })

/-- `std::abs` on the modelled price type. -/
def ratAbs (q : ℚ) : ℚ :=
  if q < 0 then -q else q

/-- The per-item error block of the `Order::validateOrder` loop (the
`continue` after "Product not found" skips the remaining checks). -/
def itemErrors (inv : Inventory) (now : Int) (item : OrderItem) : List String :=
  match inv.findProduct item.product_id with
  | none => ["Product not found: " ++ item.product_id]
  | some product =>
      (if product.quantity < item.quantity then
        ["Insufficient quantity for product " ++ item.product_id ++
          ": requested " ++ toString item.quantity ++
          ", available " ++ toString product.quantity]
      else []) ++
      (if product.isExpired now then ["Product is expired: " ++ item.product_id]
      else []) ++
      (if ratAbs (product.price - item.unit_price) > product.price * (5 / 100 : ℚ) then
        ["Price mismatch for product " ++ item.product_id ++
          ": order price $" ++ toString item.unit_price ++
          ", current price $" ++ toString product.price]
      else [])

/-- The loop of `Order::validateOrder`, accumulating errors in item order. -/
def validateItems (inv : Inventory) (now : Int) : List OrderItem → List String
  | [] => []
  | item :: rest => itemErrors inv now item ++ validateItems inv now rest

/-- `Order::validateOrder`. -/
def Order.validateOrder (o : Order) (inv : Inventory) (now : Int) : List String :=
  if o.items.isEmpty then ["Order contains no items"]
  else validateItems inv now o.items

/-- The rollback loop of `Order::processOrderInternal`: compensating
`Inventory::addQuantity` for every previously reserved item. -/
def rollback (inv : Inventory) (processed : List (String × Int)) : Inventory :=
  processed.foldl (fun i pr => (i.addQuantity pr.1 pr.2).2) inv

/-- The reservation loop of `Order::processOrderInternal`: reserve items in
insertion order, tracking `processed_items`; on the first failed
`removeQuantity`, roll the processed items back and report the failing
product id. -/
def reserveItems (inv : Inventory) (items : List OrderItem)
    (processed : List (String × Int)) : Bool × Inventory × String :=
  match items with
  | [] => (true, inv, "")
  | item :: rest =>
      let r := inv.removeQuantity item.product_id item.quantity
      if r.ok then
        reserveItems r.inv rest (processed ++ [(item.product_id, item.quantity)])
      else
        (false, rollback r.inv processed, item.product_id)

/-- The `"; "`-separated concatenation of the validation error list built by
`Order::processOrderInternal`. -/
def joinErrors (errors : List String) : String :=
  String.intercalate "; " errors

/-- Result of `Order::processOrder`: return value, the order's new state and
the inventory's new state. -/
structure ProcResult where
  ok : Bool
  ord : Order
  inv : Inventory
deriving Repr, DecidableEq

/-- `Order::processOrderInternal`.  The `catch` branch of the source is
unreachable here: `Inventory::addQuantity` / `removeQuantity` validate
amount and stock before calling the throwing `Product` primitives. -/
def Order.processOrderInternal (o : Order) (inv : Inventory) (now : Int) :
    ProcResult :=
  let step := o.updateStatus OrderStatus.processing
  if step.1 = false then
    ⟨false, o.setError "Cannot process order in current status", inv⟩
  else
    let o1 := step.2
    let errors := o1.validateOrder inv now
    if errors.isEmpty then
      let res := reserveItems inv o1.items []
      if res.1 then
        ⟨true, (o1.updateStatus OrderStatus.confirmed).2, res.2.1⟩
      else
        let o2 := o1.setError ("Failed to reserve inventory for product: " ++ res.2.2)
        ⟨false, (o2.updateStatus OrderStatus.failed).2, res.2.1⟩
    else
      let o2 := o1.setError ("Validation failed: " ++ joinErrors errors)
      ⟨false, (o2.updateStatus OrderStatus.failed).2, inv⟩

/-- `Order::processOrder`: compare-and-swap on `processing_flag_`, run
`processOrderInternal`, release the flag. -/
def Order.processOrder (o : Order) (inv : Inventory) (now : Int) : ProcResult :=
  if o.processing_flag then
    ⟨false, o.setError "Order is already being processed", inv⟩
  else
    let r := Order.processOrderInternal { o with processing_flag := true } inv now
    ⟨r.ok, { r.ord with processing_flag := false }, r.inv⟩

/-! ## Association-list lemmas for the product map -/

theorem find?_id_eq {ps : List Product} {pid : String} {p : Product}
    (h : ps.find? (fun q => q.id == pid) = some p) : p.id = pid := by
  have := List.find?_some h
  simpa using this

theorem setProduct_find?_self {ps : List Product} {pid : String} {p p' : Product}
    (hfind : ps.find? (fun q => q.id == pid) = some p) (hid : p'.id = pid) :
    (setProduct ps pid p').find? (fun q => q.id == pid) = some p' := by
  induction ps with
  | nil => simp [List.find?] at hfind
  | cons q rest ih =>
      by_cases hq : q.id = pid
      · simp only [setProduct, beq_iff_eq, hq, if_true]
        exact List.find?_cons_of_pos _ (by simp [hid])
      · rw [List.find?_cons_of_neg _ (by simp [hq])] at hfind
        simp only [setProduct, beq_iff_eq, hq, if_false]
        rw [List.find?_cons_of_neg _ (by simp [hq])]
        exact ih hfind

theorem setProduct_find?_other {ps : List Product} {pid : String} {p' : Product}
    (hid : p'.id = pid) {pid' : String} (hne : pid' ≠ pid) :
    (setProduct ps pid p').find? (fun q => q.id == pid') =
      ps.find? (fun q => q.id == pid') := by
  induction ps with
  | nil => simp [setProduct]
  | cons q rest ih =>
      by_cases hq : q.id = pid
      · have hq' : ¬(q.id = pid') := by rw [hq]; exact fun h => hne h.symm
        have hp' : ¬(p'.id = pid') := by rw [hid]; exact fun h => hne h.symm
        simp only [setProduct, beq_iff_eq, hq, if_true]
        rw [List.find?_cons_of_neg _ (by simp [hp']),
          List.find?_cons_of_neg _ (by simp [hq'])]
      · simp only [setProduct, beq_iff_eq, hq, if_false]
        by_cases hq' : q.id = pid'
        · rw [List.find?_cons_of_pos _ (by simp [hq']),
            List.find?_cons_of_pos _ (by simp [hq'])]
        · rw [List.find?_cons_of_neg _ (by simp [hq']),
            List.find?_cons_of_neg _ (by simp [hq'])]
          exact ih

theorem setProduct_mem {ps : List Product} {pid : String} {p' r : Product}
    (h : r ∈ setProduct ps pid p') : r = p' ∨ r ∈ ps := by
  induction ps with
  | nil => simp [setProduct] at h
  | cons q rest ih =>
      by_cases hq : q.id = pid
      · simp only [setProduct, beq_iff_eq, hq, if_true] at h
        rcases List.mem_cons.mp h with h | h
        · exact Or.inl h
        · exact Or.inr (List.mem_cons_of_mem _ h)
      · simp only [setProduct, beq_iff_eq, hq, if_false] at h
        rcases List.mem_cons.mp h with h | h
        · exact Or.inr (h ▸ List.mem_cons_self q rest)
        · rcases ih h with h | h
          · exact Or.inl h
          · exact Or.inr (List.mem_cons_of_mem _ h)

/-! ## Behaviour of `Inventory.removeQuantity` / `Inventory.addQuantity` -/

/-- The updated inventory produced by a successful `removeQuantity`. -/
def removedInv (inv : Inventory) (pid : String) (p : Product) (amount : Int) :
    Inventory :=
  { inv with
      products := setProduct inv.products pid
        ({ p with quantity := p.quantity - amount }) }

/-- Exhaustive description of `Inventory::removeQuantity`. -/
theorem removeQuantity_cases (inv : Inventory) (pid : String) (amount : Int) :
    (inv.removeQuantity pid amount = ⟨false, inv, []⟩ ∧
      (amount < 0 ∨ inv.findProduct pid = none ∨
        ∃ p, inv.findProduct pid = some p ∧ p.quantity < amount)) ∨
    (∃ p, inv.findProduct pid = some p ∧ 0 ≤ amount ∧ amount ≤ p.quantity ∧
      inv.removeQuantity pid amount =
        ⟨true, removedInv inv pid p amount,
          if p.quantity - amount < (removedInv inv pid p amount).getThreshold pid then
            (removedInv inv pid p amount).alert_callbacks.map
              (fun c => (c, lowStockMessage ({ p with quantity := p.quantity - amount })
                pid ((removedInv inv pid p amount).getThreshold pid)))
          else []⟩) := by
  by_cases hamt : amount < 0
  · left
    refine ⟨?_, Or.inl hamt⟩
    unfold Inventory.removeQuantity
    rw [if_pos hamt]
  · cases hf : inv.findProduct pid with
    | none =>
        left
        refine ⟨?_, Or.inr (Or.inl rfl)⟩
        unfold Inventory.removeQuantity
        rw [if_neg hamt, hf]
    | some p =>
        by_cases hqty : p.quantity < amount
        · left
          refine ⟨?_, Or.inr (Or.inr ⟨p, rfl, hqty⟩)⟩
          unfold Inventory.removeQuantity
          rw [if_neg hamt, hf]
          dsimp only
          rw [if_pos hqty]
        · right
          refine ⟨p, rfl, by omega, by omega, ?_⟩
          unfold Inventory.removeQuantity
          rw [if_neg hamt, hf]
          dsimp only
          rw [if_neg hqty]
          simp only [removedInv]
          split <;> rfl

theorem removeQuantity_fail {inv : Inventory} {pid : String} {amount : Int}
    (h : (inv.removeQuantity pid amount).ok = false) :
    (inv.removeQuantity pid amount).inv = inv ∧
    (inv.removeQuantity pid amount).invocations = [] := by
  rcases removeQuantity_cases inv pid amount with ⟨heq, _⟩ | ⟨p, _, _, _, heq⟩
  · rw [heq]; exact ⟨rfl, rfl⟩
  · rw [heq] at h; simp at h

theorem removeQuantity_ok {inv : Inventory} {pid : String} {amount : Int} {p : Product}
    (hfind : inv.findProduct pid = some p)
    (h : (inv.removeQuantity pid amount).ok = true) :
    0 ≤ amount ∧ amount ≤ p.quantity ∧
    (inv.removeQuantity pid amount).inv = removedInv inv pid p amount := by
  rcases removeQuantity_cases inv pid amount with ⟨heq, _⟩ | ⟨q, hq, h0, hle, heq⟩
  · rw [heq] at h; simp at h
  · rw [hq] at hfind
    cases hfind
    refine ⟨h0, hle, ?_⟩
    rw [heq]

theorem removeQuantity_ok_of {inv : Inventory} {pid : String} {amount : Int} {p : Product}
    (hfind : inv.findProduct pid = some p)
    (h0 : 0 ≤ amount) (hle : amount ≤ p.quantity) :
    (inv.removeQuantity pid amount).ok = true := by
  rcases removeQuantity_cases inv pid amount with ⟨heq, hc⟩ | ⟨q, _, _, _, heq⟩
  · rcases hc with hc | hc | ⟨q, hq, hqty⟩
    · omega
    · rw [hfind] at hc; cases hc
    · rw [hfind] at hq; cases hq; omega
  · rw [heq]

theorem removeQuantity_fail_of_insufficient {inv : Inventory} {pid : String}
    {amount : Int} {p : Product}
    (hfind : inv.findProduct pid = some p)
    (h : amount < 0 ∨ p.quantity < amount) :
    (inv.removeQuantity pid amount).ok = false ∧
    (inv.removeQuantity pid amount).inv = inv := by
  rcases removeQuantity_cases inv pid amount with ⟨heq, _⟩ | ⟨q, hq, h0, hle, _⟩
  · rw [heq]; exact ⟨rfl, rfl⟩
  · rw [hfind] at hq; cases hq; omega

theorem addQuantity_fst {inv : Inventory} {pid : String} {amount : Int} {p : Product}
    (hfind : inv.findProduct pid = some p) (h0 : 0 ≤ amount) :
    inv.addQuantity pid amount =
      (true, { inv with
                products := setProduct inv.products pid
                  ({ p with quantity := p.quantity + amount }) }) := by
  unfold Inventory.addQuantity
  rw [if_neg (by omega), hfind]

theorem removedInv_findProduct_self {inv : Inventory} {pid : String} {p : Product}
    (hfind : inv.findProduct pid = some p) (amount : Int) :
    (removedInv inv pid p amount).findProduct pid =
      some ({ p with quantity := p.quantity - amount }) := by
  have hid : p.id = pid := find?_id_eq hfind
  exact setProduct_find?_self hfind hid

theorem removedInv_findProduct_other {inv : Inventory} {pid : String} {p : Product}
    (hfind : inv.findProduct pid = some p) (amount : Int)
    {pid' : String} (hne : pid' ≠ pid) :
    (removedInv inv pid p amount).findProduct pid' = inv.findProduct pid' := by
  have hid : ({ p with quantity := p.quantity - amount } : Product).id = pid := by
    have := find?_id_eq hfind
    simpa using this
  exact @setProduct_find?_other inv.products pid
    ({ p with quantity := p.quantity - amount }) hid pid' hne

theorem removeQuantity_quantityOf_self {inv : Inventory} {pid : String}
    {amount : Int} {p : Product}
    (hfind : inv.findProduct pid = some p)
    (hok : (inv.removeQuantity pid amount).ok = true) :
    (inv.removeQuantity pid amount).inv.quantityOf pid =
      some (p.quantity - amount) := by
  obtain ⟨_, _, hinv⟩ := removeQuantity_ok hfind hok
  rw [hinv]
  unfold Inventory.quantityOf
  rw [removedInv_findProduct_self hfind]
  rfl

theorem removeQuantity_quantityOf_other {inv : Inventory} {pid : String}
    {amount : Int} {pid' : String} (hne : pid' ≠ pid) :
    (inv.removeQuantity pid amount).inv.quantityOf pid' = inv.quantityOf pid' := by
  cases hok : (inv.removeQuantity pid amount).ok with
  | false => rw [(removeQuantity_fail hok).1]
  | true =>
      cases hfind : inv.findProduct pid with
      | none =>
          rcases removeQuantity_cases inv pid amount with ⟨heq, _⟩ | ⟨q, hq, _, _, _⟩
          · rw [heq]
          · rw [hq] at hfind; cases hfind
      | some p =>
          obtain ⟨_, _, hinv⟩ := removeQuantity_ok hfind hok
          rw [hinv]
          unfold Inventory.quantityOf
          rw [removedInv_findProduct_other hfind amount hne]

theorem removeQuantity_isSome {inv : Inventory} (pid : String) (amount : Int)
    (x : String) :
    ((inv.removeQuantity pid amount).inv.quantityOf x).isSome =
      (inv.quantityOf x).isSome := by
  by_cases hx : x = pid
  · rw [hx]
    cases hok : (inv.removeQuantity pid amount).ok with
    | false => rw [(removeQuantity_fail hok).1]
    | true =>
        cases hfind : inv.findProduct pid with
        | none =>
            rcases removeQuantity_cases inv pid amount with ⟨heq, _⟩ | ⟨q, hq, _, _, _⟩
            · rw [heq]
            · rw [hq] at hfind; cases hfind
        | some p =>
            rw [removeQuantity_quantityOf_self hfind hok]
            unfold Inventory.quantityOf
            rw [hfind]
            rfl
  · rw [removeQuantity_quantityOf_other hx]

theorem addQuantity_quantityOf_self {inv : Inventory} {pid : String}
    {amount : Int} {p : Product}
    (hfind : inv.findProduct pid = some p) (h0 : 0 ≤ amount) :
    (inv.addQuantity pid amount).2.quantityOf pid = some (p.quantity + amount) := by
  rw [addQuantity_fst hfind h0]
  unfold Inventory.quantityOf Inventory.findProduct
  have hid : ({ p with quantity := p.quantity + amount } : Product).id = pid := by
    have := find?_id_eq hfind
    simpa using this
  rw [setProduct_find?_self hfind hid]
  rfl

theorem addQuantity_quantityOf_other {inv : Inventory} (pid : String)
    (amount : Int) {pid' : String} (hne : pid' ≠ pid) :
    (inv.addQuantity pid amount).2.quantityOf pid' = inv.quantityOf pid' := by
  unfold Inventory.addQuantity
  by_cases hamt : amount < 0
  · rw [if_pos hamt]
  · rw [if_neg hamt]
    cases hfind : inv.findProduct pid with
    | none => rfl
    | some p =>
        dsimp only
        unfold Inventory.quantityOf Inventory.findProduct
        have hid : ({ p with quantity := p.quantity + amount } : Product).id = pid := by
          have := find?_id_eq hfind
          simpa using this
        rw [@setProduct_find?_other inv.products pid
          ({ p with quantity := p.quantity + amount }) hid pid' hne]

theorem addQuantity_isSome {inv : Inventory} (pid : String) (amount : Int)
    (x : String) :
    ((inv.addQuantity pid amount).2.quantityOf x).isSome =
      (inv.quantityOf x).isSome := by
  by_cases hx : x = pid
  · subst hx
    by_cases hamt : 0 ≤ amount
    · cases hfind : inv.findProduct x with
      | none =>
          unfold Inventory.addQuantity
          rw [if_neg (by omega), hfind]
      | some p =>
          rw [addQuantity_quantityOf_self hfind hamt]
          unfold Inventory.quantityOf
          rw [hfind]
          rfl
    · unfold Inventory.addQuantity
      rw [if_pos (by omega)]
  · rw [addQuantity_quantityOf_other pid amount hx]

/-! ## Rollback bookkeeping -/

/-- Total amount reserved for a given product id in a `processed_items` list. -/
def sumFor (processed : List (String × Int)) (pid : String) : Int :=
  ((processed.filter (fun pr => pr.1 = pid)).map Prod.snd).sum

theorem sumFor_nil (pid : String) : sumFor [] pid = 0 := rfl

theorem sumFor_append (l : List (String × Int)) (q : String × Int) (pid : String) :
    sumFor (l ++ [q]) pid = sumFor l pid + (if q.1 = pid then q.2 else 0) := by
  unfold sumFor
  rw [List.filter_append, List.map_append, List.sum_append]
  by_cases hq : q.1 = pid
  · simp [hq]
  · simp [hq]

/-- Effect of the rollback loop: every processed product id that is present
gets its reserved amount added back. -/
theorem rollback_quantityOf :
    ∀ (processed : List (String × Int)) (inv : Inventory),
      (∀ pr ∈ processed, 0 ≤ pr.2 ∧ (inv.quantityOf pr.1).isSome) →
      ∀ pid, (rollback inv processed).quantityOf pid =
        (inv.quantityOf pid).map (fun v => v + sumFor processed pid) := by
  intro processed
  induction processed with
  | nil =>
      intro inv _ pid
      unfold rollback
      rw [List.foldl_nil, sumFor_nil]
      cases inv.quantityOf pid <;> simp
  | cons pr rest ih =>
      intro inv hpre pid
      have hpr := hpre pr (List.mem_cons_self pr rest)
      obtain ⟨hpr0, hprSome⟩ := hpr
      obtain ⟨pq, hpq⟩ := Option.isSome_iff_exists.mp hprSome
      have hfind : ∃ p, inv.findProduct pr.1 = some p ∧ p.quantity = pq := by
        unfold Inventory.quantityOf at hpq
        cases hf : inv.findProduct pr.1 with
        | none => rw [hf] at hpq; cases hpq
        | some p => rw [hf] at hpq; exact ⟨p, rfl, by simpa using hpq⟩
      obtain ⟨p, hp, hpqty⟩ := hfind
      have hstep : rollback inv (pr :: rest) = rollback (inv.addQuantity pr.1 pr.2).2 rest := by
        unfold rollback
        rw [List.foldl_cons]
      rw [hstep]
      have hpre' : ∀ q ∈ rest, 0 ≤ q.2 ∧
          (((inv.addQuantity pr.1 pr.2).2).quantityOf q.1).isSome := by
        intro q hq
        refine ⟨(hpre q (List.mem_cons_of_mem _ hq)).1, ?_⟩
        rw [addQuantity_isSome]
        exact (hpre q (List.mem_cons_of_mem _ hq)).2
      rw [ih _ hpre' pid]
      by_cases hpid : pr.1 = pid
      · subst hpid
        rw [addQuantity_quantityOf_self hp hpr0]
        unfold Inventory.quantityOf
        rw [hp]
        have : sumFor (pr :: rest) pr.1 = pr.2 + sumFor rest pr.1 := by
          unfold sumFor
          rw [List.filter_cons_of_pos (by simp), List.map_cons, List.sum_cons]
        rw [this]
        simp only [Option.map]
        congr 1
        omega
      · have hne : pid ≠ pr.1 := fun h => hpid h.symm
        rw [addQuantity_quantityOf_other pr.1 pr.2 hne]
        have : sumFor (pr :: rest) pid = sumFor rest pid := by
          unfold sumFor
          rw [List.filter_cons_of_neg (by simp [hpid])]
        rw [this]

/-- Effect of the reservation loop when it fails: every product's quantity is
the pre-loop quantity plus whatever was already recorded in `processed`. -/
theorem reserveItems_fail_quantityOf :
    ∀ (items : List OrderItem) (inv : Inventory) (processed : List (String × Int)),
      (∀ pr ∈ processed, 0 ≤ pr.2 ∧ (inv.quantityOf pr.1).isSome) →
      (reserveItems inv items processed).1 = false →
      ∀ pid, (reserveItems inv items processed).2.1.quantityOf pid =
        (inv.quantityOf pid).map (fun v => v + sumFor processed pid) := by
  intro items
  induction items with
  | nil =>
      intro inv processed _ hfail pid
      unfold reserveItems at hfail
      cases hfail
  | cons item rest ih =>
      intro inv processed hpre hfail pid
      unfold reserveItems at hfail ⊢
      dsimp only at hfail ⊢
      cases hok : (inv.removeQuantity item.product_id item.quantity).ok with
      | true =>
          rw [hok] at hfail
          rw [if_pos rfl] at hfail ⊢
          have hfind : ∃ p, inv.findProduct item.product_id = some p := by
            rcases removeQuantity_cases inv item.product_id item.quantity with
              ⟨heq, _⟩ | ⟨q, hq, _, _, _⟩
            · rw [heq] at hok; cases hok
            · exact ⟨q, hq⟩
          obtain ⟨p, hp⟩ := hfind
          obtain ⟨h0, hle, _⟩ := removeQuantity_ok hp hok
          have hpre' : ∀ pr ∈ processed ++ [(item.product_id, item.quantity)],
              0 ≤ pr.2 ∧
              ((inv.removeQuantity item.product_id item.quantity).inv.quantityOf pr.1).isSome := by
            intro pr hpr
            rcases List.mem_append.mp hpr with hpr | hpr
            · refine ⟨(hpre pr hpr).1, ?_⟩
              rw [removeQuantity_isSome]
              exact (hpre pr hpr).2
            · rcases List.mem_singleton.mp hpr with rfl
              refine ⟨h0, ?_⟩
              rw [removeQuantity_isSome]
              unfold Inventory.quantityOf
              rw [hp]
              rfl
          rw [ih _ _ hpre' hfail pid]
          by_cases hpid : item.product_id = pid
          · subst hpid
            rw [removeQuantity_quantityOf_self hp hok]
            unfold Inventory.quantityOf
            rw [hp]
            simp only [Option.map]
            rw [sumFor_append, if_pos rfl]
            congr 1
            omega
          · have hne : pid ≠ item.product_id := fun h => hpid h.symm
            rw [removeQuantity_quantityOf_other hne]
            cases inv.quantityOf pid with
            | none => rfl
            | some v =>
                simp only [Option.map]
                rw [sumFor_append, if_neg hpid]
                congr 1
                omega
      | false =>
          rw [hok] at hfail
          rw [if_neg (by simp)] at hfail ⊢
          have hinv := (removeQuantity_fail hok).1
          rw [hinv]
          exact rollback_quantityOf processed inv hpre pid

/-! ## Order status machine lemmas -/

/-- The successor sets actually implemented by `Order::updateStatus`. -/
def allowedTransition : OrderStatus → OrderStatus → Bool
  | OrderStatus.pending, OrderStatus.processing => true
  | OrderStatus.pending, OrderStatus.cancelled => true
  | OrderStatus.pending, OrderStatus.failed => true
  | OrderStatus.processing, OrderStatus.confirmed => true
  | OrderStatus.processing, OrderStatus.failed => true
  | OrderStatus.processing, OrderStatus.cancelled => true
  | OrderStatus.confirmed, OrderStatus.shipped => true
  | OrderStatus.confirmed, OrderStatus.cancelled => true
  | OrderStatus.shipped, OrderStatus.delivered => true
  | _, _ => false

theorem updateStatus_eq (o : Order) (t : OrderStatus) :
    o.updateStatus t =
      if allowedTransition o.status t then (true, { o with status := t })
      else (false, o) := by
  rcases o with ⟨oid, cid, items, st, total, notes, err, flag⟩
  cases st <;> cases t <;> simp [Order.updateStatus, allowedTransition]

theorem updateStatus_allowed {o : Order} {t : OrderStatus}
    (h : allowedTransition o.status t = true) :
    o.updateStatus t = (true, { o with status := t }) := by
  rw [updateStatus_eq, if_pos h]

theorem updateStatus_blocked {o : Order} {t : OrderStatus}
    (h : allowedTransition o.status t = false) :
    o.updateStatus t = (false, o) := by
  rw [updateStatus_eq]
  rw [if_neg ?_]
  rw [h]
  exact Bool.false_ne_true

/-! ## `Order::processOrder` structural lemmas -/

theorem processOrder_flag_already_set {o : Order} (inv : Inventory) (now : Int)
    (hflag : o.processing_flag = true) :
    o.processOrder inv now =
      ⟨false, o.setError "Order is already being processed", inv⟩ := by
  unfold Order.processOrder
  rw [hflag, if_pos rfl]

/-- Running `processOrder` from `PENDING` with a clear flag and a failing
validation: the order transitions to `FAILED` with the concatenated error
list recorded, and the inventory is untouched. -/
theorem processOrder_invalid {o : Order} {inv : Inventory} {now : Int}
    (hflag : o.processing_flag = false) (hst : o.status = OrderStatus.pending)
    (hval : o.validateOrder inv now ≠ []) :
    o.processOrder inv now =
      ⟨false,
        { o with
            status := OrderStatus.failed,
            error_message := "Validation failed: " ++ joinErrors (o.validateOrder inv now),
            processing_flag := false },
        inv⟩ := by
  unfold Order.processOrder
  rw [hflag]
  rw [if_neg Bool.false_ne_true]
  unfold Order.processOrderInternal
  have hst1 : ({ o with processing_flag := true } : Order).status = OrderStatus.pending := hst
  have hallow : allowedTransition ({ o with processing_flag := true } : Order).status
      OrderStatus.processing = true := by
    rw [hst1]; rfl
  rw [updateStatus_allowed hallow]
  dsimp only
  rw [if_neg (fun h => Bool.noConfusion h)]
  have hval2 : ({ o with processing_flag := true, status := OrderStatus.processing } :
      Order).validateOrder inv now = o.validateOrder inv now := rfl
  rw [hval2]
  have hne : (o.validateOrder inv now).isEmpty = false := by
    cases hval' : o.validateOrder inv now with
    | nil => exact absurd hval' hval
    | cons a l => rfl
  rw [hne]
  rw [if_neg Bool.false_ne_true]
  have hallow2 : allowedTransition
      (({ o with processing_flag := true, status := OrderStatus.processing } :
        Order).setError
          ("Validation failed: " ++ joinErrors (o.validateOrder inv now))).status
      OrderStatus.failed = true := rfl
  rw [updateStatus_allowed hallow2]
  rfl

/-- Running `processOrder` from `PENDING` with a clear flag, a passing
validation and a failing reservation loop. -/
theorem processOrder_reserve_fail {o : Order} {inv : Inventory} {now : Int}
    (hflag : o.processing_flag = false) (hst : o.status = OrderStatus.pending)
    (hval : o.validateOrder inv now = [])
    (hfail : (reserveItems inv o.items []).1 = false) :
    o.processOrder inv now =
      ⟨false,
        { o with
            status := OrderStatus.failed,
            error_message := "Failed to reserve inventory for product: " ++
              (reserveItems inv o.items []).2.2,
            processing_flag := false },
        (reserveItems inv o.items []).2.1⟩ := by
  unfold Order.processOrder
  rw [hflag]
  rw [if_neg Bool.false_ne_true]
  unfold Order.processOrderInternal
  have hst1 : ({ o with processing_flag := true } : Order).status = OrderStatus.pending := hst
  have hallow : allowedTransition ({ o with processing_flag := true } : Order).status
      OrderStatus.processing = true := by
    rw [hst1]; rfl
  rw [updateStatus_allowed hallow]
  dsimp only
  rw [if_neg (fun h => Bool.noConfusion h)]
  have hval2 : ({ o with processing_flag := true, status := OrderStatus.processing } :
      Order).validateOrder inv now = o.validateOrder inv now := rfl
  rw [hval2, hval]
  rw [show (([] : List String).isEmpty = true) from rfl]
  rw [if_pos rfl]
  have hres :
      reserveItems inv
        (({ o with processing_flag := true, status := OrderStatus.processing } : Order).items)
        [] =
      reserveItems inv o.items [] := rfl
  rw [hres, hfail]
  rw [if_neg Bool.false_ne_true]
  have hallow2 : allowedTransition
      (({ o with processing_flag := true, status := OrderStatus.processing } :
        Order).setError ("Failed to reserve inventory for product: " ++
          (reserveItems inv o.items []).2.2)).status OrderStatus.failed = true := rfl
  rw [updateStatus_allowed hallow2]
  rfl

/-- Running `processOrder` from `PENDING` with a clear flag, a passing
validation and a fully successful reservation loop. -/
theorem processOrder_reserve_ok {o : Order} {inv : Inventory} {now : Int}
    (hflag : o.processing_flag = false) (hst : o.status = OrderStatus.pending)
    (hval : o.validateOrder inv now = [])
    (hok : (reserveItems inv o.items []).1 = true) :
    o.processOrder inv now =
      ⟨true,
        { o with status := OrderStatus.confirmed, processing_flag := false },
        (reserveItems inv o.items []).2.1⟩ := by
  unfold Order.processOrder
  rw [hflag]
  rw [if_neg Bool.false_ne_true]
  unfold Order.processOrderInternal
  have hst1 : ({ o with processing_flag := true } : Order).status = OrderStatus.pending := hst
  have hallow : allowedTransition ({ o with processing_flag := true } : Order).status
      OrderStatus.processing = true := by
    rw [hst1]; rfl
  rw [updateStatus_allowed hallow]
  dsimp only
  rw [if_neg (fun h => Bool.noConfusion h)]
  have hval2 : ({ o with processing_flag := true, status := OrderStatus.processing } :
      Order).validateOrder inv now = o.validateOrder inv now := rfl
  rw [hval2, hval]
  rw [show (([] : List String).isEmpty = true) from rfl]
  rw [if_pos rfl]
  have hres :
      reserveItems inv
        (({ o with processing_flag := true, status := OrderStatus.processing } : Order).items)
        [] =
      reserveItems inv o.items [] := rfl
  rw [hres, hok]
  rw [if_pos rfl]
  have hallow2 :
      allowedTransition
        (({ o with processing_flag := true, status := OrderStatus.processing } : Order).status)
        OrderStatus.confirmed = true := rfl
  rw [updateStatus_allowed hallow2]

/-! ## Quantity-mutation call sequences (for the no-negative-inventory invariant) -/

/-- One quantity-mutation call on the inventory facade. -/
inductive InvOp where
  | add (pid : String) (amount : Int)
  | remove (pid : String) (amount : Int)
deriving Repr, DecidableEq

def applyOp (inv : Inventory) : InvOp → Inventory
  | InvOp.add pid amount => (inv.addQuantity pid amount).2
  | InvOp.remove pid amount => (inv.removeQuantity pid amount).inv

def applyOps (inv : Inventory) (ops : List InvOp) : Inventory :=
  ops.foldl applyOp inv

/-- Every stocked product has a non-negative quantity (the `Product`
constructor invariant). -/
def Inventory.allQuantitiesNonneg (inv : Inventory) : Prop :=
  ∀ p ∈ inv.products, 0 ≤ p.quantity

theorem addQuantity_preserves_nonneg {inv : Inventory} (pid : String) (amount : Int)
    (h : inv.allQuantitiesNonneg) :
    ((inv.addQuantity pid amount).2).allQuantitiesNonneg := by
  unfold Inventory.addQuantity
  by_cases hamt : amount < 0
  · rw [if_pos hamt]; exact h
  · rw [if_neg hamt]
    cases hf : inv.findProduct pid with
    | none => exact h
    | some p =>
        dsimp only
        intro r hr
        rcases setProduct_mem hr with rfl | hr
        · have hp : p ∈ inv.products := List.mem_of_find?_eq_some hf
          have := h p hp
          dsimp only
          omega
        · exact h r hr

theorem removeQuantity_preserves_nonneg {inv : Inventory} (pid : String) (amount : Int)
    (h : inv.allQuantitiesNonneg) :
    ((inv.removeQuantity pid amount).inv).allQuantitiesNonneg := by
  rcases removeQuantity_cases inv pid amount with ⟨heq, _⟩ | ⟨p, hp, h0, hle, heq⟩
  · rw [heq]; exact h
  · rw [heq]
    intro r hr
    rcases setProduct_mem hr with rfl | hr
    · have hmem : p ∈ inv.products := List.mem_of_find?_eq_some hp
      have := h p hmem
      dsimp only
      omega
    · exact h r hr

theorem applyOps_preserves_nonneg (ops : List InvOp) :
    ∀ (inv : Inventory), inv.allQuantitiesNonneg →
      (applyOps inv ops).allQuantitiesNonneg := by
  induction ops with
  | nil => intro inv h; exact h
  | cons op rest ih =>
      intro inv h
      have hstep : (applyOp inv op).allQuantitiesNonneg := by
        cases op with
        | add pid amount => exact addQuantity_preserves_nonneg pid amount h
        | remove pid amount => exact removeQuantity_preserves_nonneg pid amount h
      exact ih (applyOp inv op) hstep

/-! ## Validation characterisation -/

theorem ratAbs_eq_abs (q : ℚ) : ratAbs q = |q| := by
  unfold ratAbs
  split
  · rename_i h
    rw [abs_of_neg h]
  · rename_i h
    rw [abs_of_nonneg (le_of_not_lt h)]

/-- The four per-item checks of `Order::validateOrder`, stated positively:
the product exists, stock suffices, it is not expired, and the recorded
unit price is within 5% of the inventory's current price. -/
def itemValid (inv : Inventory) (now : Int) (item : OrderItem) : Prop :=
  ∃ p, inv.findProduct item.product_id = some p ∧
    item.quantity ≤ p.quantity ∧
    p.isExpired now = false ∧
    |p.price - item.unit_price| ≤ p.price * (5 / 100 : ℚ)

theorem itemErrors_eq_nil_iff (inv : Inventory) (now : Int) (item : OrderItem) :
    itemErrors inv now item = [] ↔ itemValid inv now item := by
  unfold itemErrors itemValid
  cases hf : inv.findProduct item.product_id with
  | none => simp
  | some p =>
      rw [List.append_eq_nil, List.append_eq_nil]
      constructor
      · rintro ⟨⟨ha, hb⟩, hc⟩
        refine ⟨p, rfl, ?_, ?_, ?_⟩
        · by_contra hlt
          rw [if_pos (by omega)] at ha
          exact List.cons_ne_nil _ _ ha
        · by_contra hexp
          rw [if_pos (Bool.not_eq_false _ ▸ hexp)] at hb
          exact List.cons_ne_nil _ _ hb
        · by_contra hgt
          rw [if_pos ?_] at hc
          · exact List.cons_ne_nil _ _ hc
          · rw [ratAbs_eq_abs]
            exact lt_of_not_le hgt
      · rintro ⟨q, hq, hle, hexp, habs⟩
        cases hq
        rw [if_neg (by omega), if_neg (by simp [hexp]), if_neg ?_]
        · exact ⟨⟨rfl, rfl⟩, rfl⟩
        · rw [ratAbs_eq_abs]
          exact not_lt.mpr habs

theorem validateItems_eq_nil_iff (inv : Inventory) (now : Int) (items : List OrderItem) :
    validateItems inv now items = [] ↔ ∀ item ∈ items, itemValid inv now item := by
  induction items with
  | nil => simp [validateItems]
  | cons item rest ih =>
      unfold validateItems
      rw [List.append_eq_nil]
      constructor
      · rintro ⟨h1, h2⟩
        intro it hit
        rcases List.mem_cons.mp hit with rfl | hit
        · exact (itemErrors_eq_nil_iff inv now it).mp h1
        · exact (ih.mp h2) it hit
      · intro h
        refine ⟨(itemErrors_eq_nil_iff inv now item).mpr
          (h item (List.mem_cons_self item rest)), ?_⟩
        exact ih.mpr (fun it hit => h it (List.mem_cons_of_mem _ hit))

/-! ## Threshold resolution after a successful decrement -/

theorem removedInv_getThreshold {inv : Inventory} {pid : String} {p : Product}
    (hfind : inv.findProduct pid = some p) (amount : Int) :
    (removedInv inv pid p amount).getThreshold pid = effectiveThreshold inv p.category := by
  unfold Inventory.getThreshold
  rw [removedInv_findProduct_self hfind]
  rfl

/-! ## Interleaving semantics of the `processing_flag_` CAS protocol

`Order::processOrder` claims the flag with `compare_exchange_strong(false,
true)` and releases it with `store(false)`.  Two concurrent invocations on
the same order are modelled as two threads whose CAS, body and release are
the atomic steps. -/

inductive ThreadPC where
  | start
  | inBody
  | done
deriving Repr, DecidableEq

structure TwoThreadState where
  flag : Bool
  pc1 : ThreadPC
  pc2 : ThreadPC
deriving Repr, DecidableEq

inductive ProcStep : TwoThreadState → TwoThreadState → Prop where
  | cas_win1 (s : TwoThreadState) : s.pc1 = ThreadPC.start → s.flag = false →
      ProcStep s { s with flag := true, pc1 := ThreadPC.inBody }
  | cas_lose1 (s : TwoThreadState) : s.pc1 = ThreadPC.start → s.flag = true →
      ProcStep s { s with pc1 := ThreadPC.done }
  | release1 (s : TwoThreadState) : s.pc1 = ThreadPC.inBody →
      ProcStep s { s with flag := false, pc1 := ThreadPC.done }
  | cas_win2 (s : TwoThreadState) : s.pc2 = ThreadPC.start → s.flag = false →
      ProcStep s { s with flag := true, pc2 := ThreadPC.inBody }
  | cas_lose2 (s : TwoThreadState) : s.pc2 = ThreadPC.start → s.flag = true →
      ProcStep s { s with pc2 := ThreadPC.done }
  | release2 (s : TwoThreadState) : s.pc2 = ThreadPC.inBody →
      ProcStep s { s with flag := false, pc2 := ThreadPC.done }

/-- Both invocations about to run, flag clear. -/
def procInit : TwoThreadState :=
  { flag := false, pc1 := ThreadPC.start, pc2 := ThreadPC.start }

def ProcReachable (s : TwoThreadState) : Prop :=
  Relation.ReflTransGen ProcStep procInit s

/-- Inductive invariant: a thread inside the body implies the flag is held,
and both threads are never inside the body together. -/
def procInv (s : TwoThreadState) : Prop :=
  (s.pc1 = ThreadPC.inBody → s.flag = true) ∧
  (s.pc2 = ThreadPC.inBody → s.flag = true) ∧
  ¬(s.pc1 = ThreadPC.inBody ∧ s.pc2 = ThreadPC.inBody)

theorem procInv_step {s t : TwoThreadState} (hs : procInv s) (hst : ProcStep s t) :
    procInv t := by
  obtain ⟨h1, h2, h12⟩ := hs
  cases hst with
  | cas_win1 hpc hflag =>
      refine ⟨fun _ => rfl, fun _ => rfl, ?_⟩
      rintro ⟨_, hb2⟩
      have := h2 hb2
      rw [hflag] at this
      exact Bool.false_ne_true this
  | cas_lose1 hpc hflag =>
      refine ⟨fun hb => ?_, fun hb => h2 hb, ?_⟩
      · cases hb
      · rintro ⟨hb1, _⟩
        cases hb1
  | release1 hpc =>
      refine ⟨fun hb => ?_, fun hb => ?_, ?_⟩
      · cases hb
      · exact absurd ⟨hpc, hb⟩ h12
      · rintro ⟨hb1, _⟩
        cases hb1
  | cas_win2 hpc hflag =>
      refine ⟨fun _ => rfl, fun _ => rfl, ?_⟩
      rintro ⟨hb1, _⟩
      have := h1 hb1
      rw [hflag] at this
      exact Bool.false_ne_true this
  | cas_lose2 hpc hflag =>
      refine ⟨fun hb => h1 hb, fun hb => ?_, ?_⟩
      · cases hb
      · rintro ⟨_, hb2⟩
        cases hb2
  | release2 hpc =>
      refine ⟨fun hb => ?_, fun hb => ?_, ?_⟩
      · exact absurd ⟨hb, hpc⟩ h12
      · cases hb
      · rintro ⟨_, hb2⟩
        cases hb2

theorem procInv_reachable {s : TwoThreadState} (h : ProcReachable s) : procInv s := by
  induction h with
  | refl => simp [procInv, procInit]
  | tail _ hstep ih => exact procInv_step ih hstep

/-! ## Truncation arithmetic for `getDaysUntilExpiry` -/

theorem tdiv_hours_days_cast (n : Nat) :
    (((n : Int)).tdiv 3600).tdiv 24 = ((n / 86400 : Nat) : Int) := by
  show ((Int.ofNat n).tdiv 3600).tdiv 24 = Int.ofNat (n / 86400)
  rw [show ((3600 : Int)) = Int.ofNat 3600 from rfl,
    show ((24 : Int)) = Int.ofNat 24 from rfl]
  rw [show (Int.ofNat n).tdiv (Int.ofNat 3600) = Int.ofNat (n / 3600) from rfl]
  rw [show (Int.ofNat (n / 3600)).tdiv (Int.ofNat 24) = Int.ofNat (n / 3600 / 24) from rfl]
  rw [Nat.div_div_eq_div_mul]

theorem tdiv_hours_days_neg_cast (n : Nat) :
    ((-((n : Int))).tdiv 3600).tdiv 24 = -((n / 86400 : Nat) : Int) := by
  rw [Int.neg_tdiv, Int.neg_tdiv, tdiv_hours_days_cast]

/-! ## Concrete states used to instantiate the theorems -/

def productW : Product := ⟨"P1", "Widget", "General", 5, 5, none⟩

def invW : Inventory := ⟨[productW], 0, [], []⟩

/-- Valid order whose duplicated line passes validation (3 ≤ 5 twice) but
whose second reservation fails (after the first, only 2 units remain). -/
def orderDup : Order :=
  ⟨"O1", "C1", [⟨"P1", 3, 5⟩, ⟨"P1", 3, 5⟩], OrderStatus.pending, 30, "", "", false⟩

/-- Order whose only item references a product absent from `invW`. -/
def orderBad : Order :=
  ⟨"O2", "C1", [⟨"P2", 1, 1⟩], OrderStatus.pending, 1, "", "", false⟩

/-- Order whose processing flag is already held by another invocation. -/
def orderFlagged : Order :=
  ⟨"O3", "C1", [⟨"P1", 1, 5⟩], OrderStatus.pending, 5, "", "", true⟩

def orderEmpty : Order := ⟨"O4", "C1", [], OrderStatus.pending, 0, "", "", false⟩

/-! ## Claim theorems -/

/-- C1: if `processOrder` passes validation but some `removeQuantity` call of
the reservation loop fails, `processOrder` returns `false`, sets the order's
status to `FAILED`, and leaves every product's inventory quantity equal to
its value immediately before the reservation loop began (items reserved
before the failure are restored by compensating `addQuantity` calls, later
items are never decremented). -/
theorem processOrder_rollback_restores_inventory (o : Order) (inv : Inventory)
    (now : Int)
    (hflag : o.processing_flag = false) (hst : o.status = OrderStatus.pending)
    (hval : o.validateOrder inv now = [])
    (hfail : (reserveItems inv o.items []).1 = false) :
    (o.processOrder inv now).ok = false ∧
    (o.processOrder inv now).ord.status = OrderStatus.failed ∧
    ∀ pid, (o.processOrder inv now).inv.quantityOf pid = inv.quantityOf pid := by
  rw [processOrder_reserve_fail hflag hst hval hfail]
  refine ⟨rfl, rfl, ?_⟩
  intro pid
  have h := reserveItems_fail_quantityOf o.items inv [] (by simp) hfail pid
  dsimp only
  rw [h]
  cases hq : inv.quantityOf pid with
  | none => rfl
  | some v =>
      simp only [Option.map]
      rw [show sumFor [] pid = 0 from rfl]
      rw [Int.add_zero]

theorem processOrder_rollback_restores_inventory_witness :
    (orderDup.processOrder invW 0).ok = false ∧
    (orderDup.processOrder invW 0).ord.status = OrderStatus.failed ∧
    (orderDup.processOrder invW 0).inv.quantityOf "P1" = invW.quantityOf "P1" := by
  have hval : orderDup.validateOrder invW 0 = [] := by
    norm_num [Order.validateOrder, validateItems, itemErrors, Inventory.findProduct,
      List.find?, Product.isExpired, ratAbs, orderDup, invW, productW]
  have hfail : (reserveItems invW orderDup.items []).1 = false := by decide
  have h := processOrder_rollback_restores_inventory orderDup invW 0 rfl rfl hval hfail
  exact ⟨h.1, h.2.1, h.2.2 "P1"⟩

/-- C4: when validation produces a non-empty error list, `processOrder`
returns `false`, sets the status to `FAILED`, records the concatenated error
list (so the error message is non-empty), and performs no inventory
mutation. -/
theorem processOrder_validation_failure (o : Order) (inv : Inventory) (now : Int)
    (hflag : o.processing_flag = false) (hst : o.status = OrderStatus.pending)
    (hval : o.validateOrder inv now ≠ []) :
    (o.processOrder inv now).ok = false ∧
    (o.processOrder inv now).ord.status = OrderStatus.failed ∧
    (o.processOrder inv now).ord.error_message =
      "Validation failed: " ++ joinErrors (o.validateOrder inv now) ∧
    (o.processOrder inv now).ord.error_message ≠ "" ∧
    (o.processOrder inv now).inv = inv := by
  rw [processOrder_invalid hflag hst hval]
  refine ⟨rfl, rfl, rfl, ?_, rfl⟩
  intro hempty
  dsimp only at hempty
  have hlen : ("Validation failed: " ++ joinErrors (o.validateOrder inv now)).length
      = (0 : Nat) := by
    rw [hempty]
    rfl
  rw [String.length_append] at hlen
  have h19 : ("Validation failed: " : String).length = 19 := rfl
  omega

theorem processOrder_validation_failure_witness :
    (orderBad.processOrder invW 0).ok = false ∧
    (orderBad.processOrder invW 0).ord.status = OrderStatus.failed ∧
    (orderBad.processOrder invW 0).ord.error_message =
      "Validation failed: " ++ joinErrors (orderBad.validateOrder invW 0) ∧
    (orderBad.processOrder invW 0).ord.error_message ≠ "" ∧
    (orderBad.processOrder invW 0).inv = invW := by
  have hval : orderBad.validateOrder invW 0 ≠ [] := by decide
  exact processOrder_validation_failure orderBad invW 0 rfl rfl hval

/-- C5: a `processOrder` invocation that finds the processing flag already
set fails immediately with the "already being processed" error, leaving the
status and the inventory untouched; an invocation that wins the flag
releases it when done; and in the atomic-step interleaving semantics of the
flag protocol, two concurrent invocations are never both inside the
processing body. -/
theorem processOrder_at_most_one_winner :
    (∀ (o : Order) (inv : Inventory) (now : Int), o.processing_flag = true →
      (o.processOrder inv now).ok = false ∧
      (o.processOrder inv now).ord.error_message = "Order is already being processed" ∧
      (o.processOrder inv now).ord.status = o.status ∧
      (o.processOrder inv now).inv = inv) ∧
    (∀ (o : Order) (inv : Inventory) (now : Int), o.processing_flag = false →
      (o.processOrder inv now).ord.processing_flag = false) ∧
    (∀ s, ProcReachable s → ¬(s.pc1 = ThreadPC.inBody ∧ s.pc2 = ThreadPC.inBody)) := by
  refine ⟨?_, ?_, ?_⟩
  · intro o inv now hflag
    rw [processOrder_flag_already_set inv now hflag]
    exact ⟨rfl, rfl, rfl, rfl⟩
  · intro o inv now hflag
    unfold Order.processOrder
    rw [hflag]
    rw [if_neg Bool.false_ne_true]
  · intro s hs
    exact (procInv_reachable hs).2.2

theorem processOrder_at_most_one_winner_witness :
    (orderFlagged.processOrder invW 0).ok = false ∧
    (orderFlagged.processOrder invW 0).ord.error_message =
      "Order is already being processed" ∧
    (orderFlagged.processOrder invW 0).inv = invW ∧
    (orderEmpty.processOrder invW 0).ord.processing_flag = false ∧
    ¬(procInit.pc1 = ThreadPC.inBody ∧ procInit.pc2 = ThreadPC.inBody) := by
  have h := processOrder_at_most_one_winner
  have h1 := h.1 orderFlagged invW 0 rfl
  exact ⟨h1.1, h1.2.1, h1.2.2.2, h.2.1 orderEmpty invW 0 rfl,
    h.2.2 procInit Relation.ReflTransGen.refl⟩

/-- C2: starting from an inventory whose product quantities are all
non-negative, any sequence of `addQuantity` / `removeQuantity` calls keeps
every quantity non-negative; and a `removeQuantity` whose amount is negative
or exceeds the product's current quantity returns `false` and leaves the
inventory unchanged. -/
theorem inventory_never_negative :
    (∀ (inv : Inventory) (ops : List InvOp), inv.allQuantitiesNonneg →
      (applyOps inv ops).allQuantitiesNonneg) ∧
    (∀ (inv : Inventory) (pid : String) (amount : Int) (p : Product),
      inv.findProduct pid = some p → (amount < 0 ∨ p.quantity < amount) →
      (inv.removeQuantity pid amount).ok = false ∧
      (inv.removeQuantity pid amount).inv = inv) := by
  refine ⟨?_, ?_⟩
  · intro inv ops h
    exact applyOps_preserves_nonneg ops inv h
  · intro inv pid amount p hfind hbad
    exact removeQuantity_fail_of_insufficient hfind hbad

theorem inventory_never_negative_witness :
    (applyOps invW [InvOp.remove "P1" 3, InvOp.add "P1" 1,
      InvOp.remove "P1" 3]).allQuantitiesNonneg ∧
    (invW.removeQuantity "P1" 99).ok = false ∧
    (invW.removeQuantity "P1" 99).inv = invW := by
  have h := inventory_never_negative
  have h1 := h.1 invW [InvOp.remove "P1" 3, InvOp.add "P1" 1, InvOp.remove "P1" 3]
    (by unfold Inventory.allQuantitiesNonneg; decide)
  have h2 := h.2 invW "P1" 99 productW (by decide) (Or.inr (by decide))
  exact ⟨h1, h2.1, h2.2⟩

/-- Inventory whose product "P1" (category "Cat", quantity 10) sits above a
category threshold override of 9, with two registered callbacks. -/
def invT : Inventory := ⟨[⟨"P1", "W", "Cat", 5, 10, none⟩], 4, [("Cat", 9)], [0, 1]⟩

/-- C6: a successful `removeQuantity` invokes every registered alert
callback (synchronously, with the formatted low-stock message) exactly when
the resulting quantity is strictly below the effective threshold — the
category override when the product's category has one, the store-wide
default otherwise; a failed `removeQuantity` never triggers callbacks. -/
theorem removeQuantity_alert_characterisation (inv : Inventory) (pid : String)
    (amount : Int) (p : Product) (hfind : inv.findProduct pid = some p) :
    ((inv.removeQuantity pid amount).ok = true →
      (inv.removeQuantity pid amount).invocations =
        (if p.quantity - amount < effectiveThreshold inv p.category then
          inv.alert_callbacks.map (fun c => (c,
            lowStockMessage ({ p with quantity := p.quantity - amount }) pid
              (effectiveThreshold inv p.category)))
        else [])) ∧
    ((inv.removeQuantity pid amount).ok = false →
      (inv.removeQuantity pid amount).invocations = []) := by
  constructor
  · intro hok
    rcases removeQuantity_cases inv pid amount with ⟨heq, _⟩ | ⟨q, hq, h0, hle, heq⟩
    · rw [heq] at hok
      cases hok
    · rw [hq] at hfind
      cases hfind
      rw [heq]
      dsimp only
      rw [removedInv_getThreshold hq amount]
      have hcb : (removedInv inv pid p amount).alert_callbacks = inv.alert_callbacks := rfl
      rw [hcb]
  · intro hok
    exact (removeQuantity_fail hok).2

theorem removeQuantity_alert_characterisation_witness :
    ((invT.removeQuantity "P1" 2).invocations =
      (if (10 : Int) - 2 < effectiveThreshold invT "Cat" then
        invT.alert_callbacks.map (fun c => (c,
          lowStockMessage (⟨"P1", "W", "Cat", 5, 10 - 2, none⟩ : Product) "P1"
            (effectiveThreshold invT "Cat")))
      else [])) ∧
    (invT.removeQuantity "P1" 99).invocations = [] := by
  have h2 := removeQuantity_alert_characterisation invT "P1" 2
    ⟨"P1", "W", "Cat", 5, 10, none⟩ (by decide)
  have h99 := removeQuantity_alert_characterisation invT "P1" 99
    ⟨"P1", "W", "Cat", 5, 10, none⟩ (by decide)
  exact ⟨h2.1 (by decide), h99.2 (by decide)⟩

/-- C7: `validateOrder` returns an empty error list exactly when the order
has at least one item and every item passes all four checks (product
exists, available quantity suffices, product not expired, recorded price
within 5% of the current price); an order with zero items yields exactly
the error "Order contains no items". -/
theorem validateOrder_characterisation (o : Order) (inv : Inventory) (now : Int) :
    (o.validateOrder inv now = [] ↔
      (o.items ≠ [] ∧ ∀ item ∈ o.items, itemValid inv now item)) ∧
    (o.items = [] → o.validateOrder inv now = ["Order contains no items"]) := by
  constructor
  · unfold Order.validateOrder
    cases hitems : o.items with
    | nil => simp
    | cons a l =>
        rw [if_neg (by simp)]
        rw [validateItems_eq_nil_iff]
        constructor
        · intro h
          exact ⟨by simp, h⟩
        · rintro ⟨_, h⟩
          exact h
  · intro h
    unfold Order.validateOrder
    rw [h]
    rfl

theorem validateOrder_characterisation_witness :
    orderEmpty.validateOrder invW 0 = ["Order contains no items"] :=
  (validateOrder_characterisation orderEmpty invW 0).2 rfl

def orderFailedState : Order := ⟨"O5", "C1", [], OrderStatus.failed, 0, "", "", false⟩

/-- C3 counterexample: the claim's successor set for `PENDING` is
`{PROCESSING}` and it requires every transition attempt out of a terminal
state — via `updateStatus` or `cancelOrder` — to fail.  The code, however,
accepts `PENDING → CANCELLED` and `PENDING → FAILED` in `updateStatus`, and
`cancelOrder` succeeds from the terminal state `FAILED` (and even mutates
the status to `CANCELLED` there). -/
theorem status_transition_claim_counterexample :
    (orderEmpty.updateStatus OrderStatus.cancelled).1 = true ∧
    (orderEmpty.updateStatus OrderStatus.failed).1 = true ∧
    (orderFailedState.cancelOrder "late").1 = true ∧
    (orderFailedState.cancelOrder "late").2.status = OrderStatus.cancelled := by
  decide

/-- C3 (amended): `updateStatus` succeeds exactly for the transitions of
`allowedTransition` — PENDING→{PROCESSING, CANCELLED, FAILED},
PROCESSING→{CONFIRMED, FAILED, CANCELLED}, CONFIRMED→{SHIPPED, CANCELLED},
SHIPPED→{DELIVERED} — leaving the status unchanged on failure, and always
fails from the terminal states DELIVERED, CANCELLED and FAILED; whereas
`cancelOrder` succeeds if and only if the status is neither SHIPPED nor
DELIVERED (hence also out of the terminal states CANCELLED and FAILED),
setting the status to CANCELLED on success and mutating nothing on
failure. -/
theorem status_transition_characterisation (o : Order) (t : OrderStatus)
    (reason : String) :
    ((o.updateStatus t).1 = true ↔ allowedTransition o.status t = true) ∧
    ((o.updateStatus t).1 = false → (o.updateStatus t).2 = o) ∧
    ((o.updateStatus t).1 = true → (o.updateStatus t).2.status = t) ∧
    ((o.status = OrderStatus.delivered ∨ o.status = OrderStatus.cancelled ∨
        o.status = OrderStatus.failed) → (o.updateStatus t).1 = false) ∧
    ((o.cancelOrder reason).1 = true ↔
      ¬(o.status = OrderStatus.delivered ∨ o.status = OrderStatus.shipped)) ∧
    ((o.cancelOrder reason).1 = true →
      (o.cancelOrder reason).2.status = OrderStatus.cancelled) ∧
    ((o.cancelOrder reason).1 = false → (o.cancelOrder reason).2 = o) := by
  rw [updateStatus_eq]
  refine ⟨?_, ?_, ?_, ?_, ?_, ?_, ?_⟩
  · by_cases hallow : allowedTransition o.status t = true
    · rw [if_pos hallow]
      simp [hallow]
    · rw [if_neg hallow]
      simp [hallow]
  · by_cases hallow : allowedTransition o.status t = true
    · rw [if_pos hallow]
      intro h
      cases h
    · rw [if_neg hallow]
      intro _
      rfl
  · by_cases hallow : allowedTransition o.status t = true
    · rw [if_pos hallow]
      intro _
      rfl
    · rw [if_neg hallow]
      intro h
      cases h
  · intro hterm
    have hfalse : allowedTransition o.status t = false := by
      rcases hterm with h | h | h <;> rw [h] <;> cases t <;> rfl
    rw [if_neg (by rw [hfalse]; exact Bool.false_ne_true)]
  · unfold Order.cancelOrder
    by_cases hc : o.status = OrderStatus.delivered ∨ o.status = OrderStatus.shipped
    · rw [if_pos hc]
      simp [hc]
    · rw [if_neg hc]
      simp [hc]
  · unfold Order.cancelOrder
    by_cases hc : o.status = OrderStatus.delivered ∨ o.status = OrderStatus.shipped
    · rw [if_pos hc]
      intro h
      cases h
    · rw [if_neg hc]
      intro _
      rfl
  · unfold Order.cancelOrder
    by_cases hc : o.status = OrderStatus.delivered ∨ o.status = OrderStatus.shipped
    · rw [if_pos hc]
      intro _
      rfl
    · rw [if_neg hc]
      intro h
      cases h

theorem status_transition_characterisation_witness :
    (orderEmpty.updateStatus OrderStatus.processing).1 = true ∧
    (orderFailedState.updateStatus OrderStatus.processing).1 = false ∧
    (orderFailedState.cancelOrder "x").2.status = OrderStatus.cancelled := by
  have h1 := status_transition_characterisation orderEmpty OrderStatus.processing ""
  have h2 := status_transition_characterisation orderFailedState OrderStatus.processing "x"
  refine ⟨h1.1.mpr (by decide), h2.2.2.2.1 (Or.inr (Or.inr rfl)), ?_⟩
  exact h2.2.2.2.2.2.1 (h2.2.2.2.2.1.mpr (by decide))

/-! ## `Order::addItem` lemmas -/

theorem containsItem_false_forall {o : Order} {pid : String}
    (h : o.containsItem pid = false) :
    ∀ it ∈ o.items, ¬(it.product_id = pid) := by
  unfold Order.containsItem at h
  intro it hit heq
  have := List.any_eq_false.mp h it hit
  simp [heq] at this

theorem addItem_fresh {o : Order} {pid : String} {quantity : Int} {unit_price : ℚ}
    (hargs : ¬(pid = "" ∨ quantity ≤ 0 ∨ unit_price < 0))
    (hst : o.status = OrderStatus.pending)
    (hfresh : o.containsItem pid = false) :
    o.addItem pid quantity unit_price =
      (true, { o with
        items := o.items ++ [⟨pid, quantity, unit_price⟩],
        total_amount :=
          Order.calculateTotal
            { o with items := o.items ++ [⟨pid, quantity, unit_price⟩] } }) := by
  unfold Order.addItem
  rw [if_neg hargs]
  have hcan : o.canModify = true := by
    unfold Order.canModify
    rw [hst]
    rfl
  rw [hcan]
  rw [if_neg (by simp)]
  rw [hfresh]
  rw [if_neg Bool.false_ne_true]

theorem addItem_existing {o : Order} {pid : String} {quantity : Int} {unit_price : ℚ}
    (hargs : ¬(pid = "" ∨ quantity ≤ 0 ∨ unit_price < 0))
    (hst : o.status = OrderStatus.pending)
    (hcont : o.containsItem pid = true) :
    o.addItem pid quantity unit_price =
      (true, { o with
        items := addToExisting o.items pid quantity,
        total_amount :=
          Order.calculateTotal
            { o with items := addToExisting o.items pid quantity } }) := by
  unfold Order.addItem
  rw [if_neg hargs]
  have hcan : o.canModify = true := by
    unfold Order.canModify
    rw [hst]
    rfl
  rw [hcan]
  rw [if_neg (by simp)]
  rw [hcont]
  rw [if_pos rfl]

theorem addToExisting_append {xs : List OrderItem} {pid : String}
    (hfresh : ∀ it ∈ xs, ¬(it.product_id = pid)) (q1 q2 : Int) (pr : ℚ) :
    addToExisting (xs ++ [⟨pid, q1, pr⟩]) pid q2 = xs ++ [⟨pid, q1 + q2, pr⟩] := by
  induction xs with
  | nil =>
      simp [addToExisting]
  | cons it rest ih =>
      have hit := hfresh it (List.mem_cons_self it rest)
      simp only [List.cons_append, addToExisting, beq_iff_eq, hit, if_false]
      exact congrArg (fun l => it :: l)
        (ih (fun x hx => hfresh x (List.mem_cons_of_mem _ hx)))

theorem filter_append_fresh {xs : List OrderItem} {pid : String}
    (hfresh : ∀ x ∈ xs, ¬(x.product_id = pid)) {it : OrderItem}
    (hit : it.product_id = pid) :
    (xs ++ [it]).filter (fun x => x.product_id == pid) = [it] := by
  induction xs with
  | nil => simp [hit]
  | cons y rest ih =>
      have hy := hfresh y (List.mem_cons_self y rest)
      simp only [List.cons_append, List.filter_cons, beq_iff_eq, hy, decide_eq_true_eq,
        if_neg hy]
      exact ih (fun x hx => hfresh x (List.mem_cons_of_mem _ hx))

/-- C8: on a `PENDING` order not yet containing `pid`, two `addItem` calls
for the same product id with valid arguments both return `true`, the result
holds a single line for that id carrying quantity `q1 + q2` (no duplicate
line), and the item count grows only on the first call. -/
theorem addItem_duplicate_merges (o : Order) (pid : String) (q1 q2 : Int)
    (pr1 pr2 : ℚ) (hst : o.status = OrderStatus.pending) (hpid : pid ≠ "")
    (hq1 : 0 < q1) (hq2 : 0 < q2) (hpr1 : 0 ≤ pr1) (hpr2 : 0 ≤ pr2)
    (hfresh : o.containsItem pid = false) :
    (o.addItem pid q1 pr1).1 = true ∧
    ((o.addItem pid q1 pr1).2.addItem pid q2 pr2).1 = true ∧
    ((o.addItem pid q1 pr1).2.addItem pid q2 pr2).2.items.filter
      (fun it => it.product_id == pid) = [⟨pid, q1 + q2, pr1⟩] ∧
    (o.addItem pid q1 pr1).2.items.length = o.items.length + 1 ∧
    ((o.addItem pid q1 pr1).2.addItem pid q2 pr2).2.items.length =
      (o.addItem pid q1 pr1).2.items.length := by
  have hargs1 : ¬(pid = "" ∨ q1 ≤ 0 ∨ pr1 < 0) := by
    push_neg
    exact ⟨hpid, by omega, hpr1⟩
  have hargs2 : ¬(pid = "" ∨ q2 ≤ 0 ∨ pr2 < 0) := by
    push_neg
    exact ⟨hpid, by omega, hpr2⟩
  have hforall := containsItem_false_forall hfresh
  have r1eq := addItem_fresh hargs1 hst hfresh
  have h1fst : (o.addItem pid q1 pr1).1 = true := by rw [r1eq]
  have h1items : (o.addItem pid q1 pr1).2.items = o.items ++ [⟨pid, q1, pr1⟩] := by
    rw [r1eq]
  have h1st : (o.addItem pid q1 pr1).2.status = OrderStatus.pending := by
    rw [r1eq]
    exact hst
  have h1cont : (o.addItem pid q1 pr1).2.containsItem pid = true := by
    unfold Order.containsItem
    rw [h1items]
    simp
  have r2eq := addItem_existing hargs2 h1st h1cont
  have h2fst : ((o.addItem pid q1 pr1).2.addItem pid q2 pr2).1 = true := by rw [r2eq]
  have h2items : ((o.addItem pid q1 pr1).2.addItem pid q2 pr2).2.items =
      o.items ++ [⟨pid, q1 + q2, pr1⟩] := by
    rw [r2eq]
    dsimp only
    rw [h1items]
    exact addToExisting_append hforall q1 q2 pr1
  refine ⟨h1fst, h2fst, ?_, ?_, ?_⟩
  · rw [h2items]
    exact filter_append_fresh hforall rfl
  · rw [h1items]
    simp
  · rw [h2items, h1items]
    simp

/-- C10: `updateItemQuantity` with a non-positive quantity does not reject
the argument: it behaves exactly as `removeItem` — on a `PENDING` order
containing the item it removes the line, recomputes the total and returns
`true`; on an order not in `PENDING` it returns `false` without mutation. -/
theorem updateItemQuantity_nonpositive (o : Order) (pid : String) (q : Int)
    (hq : q ≤ 0) :
    o.updateItemQuantity pid q = o.removeItem pid ∧
    (o.status = OrderStatus.pending → o.containsItem pid = true →
      (o.updateItemQuantity pid q).1 = true ∧
      (o.updateItemQuantity pid q).2.items = eraseItem o.items pid ∧
      (o.updateItemQuantity pid q).2.total_amount =
        Order.calculateTotal { o with items := eraseItem o.items pid }) ∧
    (o.status ≠ OrderStatus.pending → o.updateItemQuantity pid q = (false, o)) := by
  have heq : o.updateItemQuantity pid q = o.removeItem pid := by
    unfold Order.updateItemQuantity
    rw [if_pos hq]
  refine ⟨heq, ?_, ?_⟩
  · intro hst hcont
    rw [heq]
    unfold Order.removeItem
    have hcan : o.canModify = true := by
      unfold Order.canModify
      rw [hst]
      rfl
    rw [hcan]
    rw [if_neg (by simp)]
    rw [hcont]
    rw [if_pos rfl]
    exact ⟨rfl, rfl, rfl⟩
  · intro hne
    rw [heq]
    unfold Order.removeItem
    have hcan : o.canModify = false := by
      unfold Order.canModify
      rw [beq_eq_false_iff_ne]
      exact hne
    rw [hcan]
    rw [if_pos (by simp)]

theorem updateItemQuantity_nonpositive_witness :
    (orderDup.updateItemQuantity "P1" 0 = orderDup.removeItem "P1") ∧
    (orderDup.updateItemQuantity "P1" 0).1 = true ∧
    (orderDup.updateItemQuantity "P1" 0).2.items = eraseItem orderDup.items "P1" ∧
    (orderFailedState.updateItemQuantity "P1" (-2) = (false, orderFailedState)) := by
  have h := updateItemQuantity_nonpositive orderDup "P1" 0 (by decide)
  have h2 := updateItemQuantity_nonpositive orderFailedState "P1" (-2) (by decide)
  have hp := h.2.1 rfl (by decide)
  exact ⟨h.1, hp.1, hp.2.1, h2.2.2 (by decide)⟩

theorem addItem_duplicate_merges_witness :
    (orderEmpty.addItem "P1" 2 5).1 = true ∧
    ((orderEmpty.addItem "P1" 2 5).2.addItem "P1" 3 5).1 = true ∧
    ((orderEmpty.addItem "P1" 2 5).2.addItem "P1" 3 5).2.items.filter
      (fun it => it.product_id == "P1") = [⟨"P1", 2 + 3, 5⟩] ∧
    (orderEmpty.addItem "P1" 2 5).2.items.length = orderEmpty.items.length + 1 ∧
    ((orderEmpty.addItem "P1" 2 5).2.addItem "P1" 3 5).2.items.length =
      (orderEmpty.addItem "P1" 2 5).2.items.length := by
  have h := addItem_duplicate_merges orderEmpty "P1" 2 3 5 5 rfl (by decide)
    (by decide) (by decide) (by norm_num) (by norm_num) (by decide)
  exact h

/-- C9 counterexample: one hour past expiry (`expiry = 0`, `now = 3600`
seconds) the product is expired, yet `getDaysUntilExpiry` returns `0` —
not the floor value `-1` and not a negative number, because
`duration_cast` and C++ `/` truncate toward zero instead of flooring. -/
theorem daysUntilExpiry_claim_counterexample :
    perishableIsExpired 0 3600 = true ∧
    getDaysUntilExpiry 0 3600 = 0 ∧
    Int.fdiv ((0 : Int) - 3600) 86400 = -1 ∧
    ¬ getDaysUntilExpiry 0 3600 < 0 := by
  refine ⟨by decide, by decide, by decide, by decide⟩

/-- C9 (amended): `daysUntilExpiry()` equals `(expiry − now)` converted to
whole days with truncation toward zero (hours first, then `/ 24`).  When
the product is not expired this coincides with the claimed floor; when it
is expired the result is only non-positive — it is negative exactly when
`now` exceeds the expiry by at least 86400 seconds (one full day), so a
product expired by less than a day reports `0` days. -/
theorem daysUntilExpiry_truncation (expiry_date now : Int) :
    (perishableIsExpired expiry_date now = true →
      getDaysUntilExpiry expiry_date now ≤ 0) ∧
    (getDaysUntilExpiry expiry_date now < 0 ↔ 86400 ≤ now - expiry_date) ∧
    (perishableIsExpired expiry_date now = false →
      getDaysUntilExpiry expiry_date now = Int.fdiv (expiry_date - now) 86400) := by
  unfold getDaysUntilExpiry perishableIsExpired
  rcases Int.le_or_lt 0 (expiry_date - now) with hge | hlt
  · obtain ⟨n, hn⟩ := Int.eq_ofNat_of_zero_le hge
    rw [hn, tdiv_hours_days_cast]
    refine ⟨?_, ?_, ?_⟩
    · intro hexp
      simp only [decide_eq_true_eq] at hexp
      omega
    · constructor
      · intro h
        omega
      · intro h
        omega
    · intro _
      have hfe : Int.fdiv ((n : Int)) 86400 = ((n : Int)).tdiv 86400 :=
        Int.fdiv_eq_tdiv (by omega) (by norm_num)
      rw [hfe]
      show Int.ofNat (n / 86400) = (Int.ofNat n).tdiv (Int.ofNat 86400)
      rfl
  · have hpos : (0 : Int) ≤ now - expiry_date := by omega
    obtain ⟨n, hn⟩ := Int.eq_ofNat_of_zero_le hpos
    have hd : expiry_date - now = -((n : Int)) := by omega
    rw [hd, tdiv_hours_days_neg_cast]
    refine ⟨?_, ?_, ?_⟩
    · intro _
      omega
    · have hone : 1 ≤ n / 86400 ↔ 86400 ≤ n := Nat.one_le_div_iff (by norm_num)
      constructor
      · intro h
        have h1 : 1 ≤ n / 86400 := by omega
        have := hone.mp h1
        omega
      · intro h
        have h86 : 86400 ≤ n := by omega
        have := hone.mpr h86
        omega
    · intro hexp
      simp only [decide_eq_false_iff_not] at hexp
      omega

theorem daysUntilExpiry_truncation_witness :
    getDaysUntilExpiry 0 (2 * 86400 + 5) ≤ 0 ∧
    (getDaysUntilExpiry 0 (2 * 86400 + 5) < 0 ↔
      86400 ≤ (2 * 86400 + 5 : Int) - 0) ∧
    getDaysUntilExpiry 172805 5 = Int.fdiv ((172805 : Int) - 5) 86400 := by
  have h := daysUntilExpiry_truncation 0 (2 * 86400 + 5)
  have h2 := daysUntilExpiry_truncation 172805 5
  exact ⟨h.1 (by decide), h.2.1, h2.2.2 (by decide)⟩

end Quirkventory
